import Mathlib

/-!
Verification of the sikalabs/webhook-dispatcher ingestion pipeline.

This file gives a shallow embedding of the Go code in
`pkg/server/server.go` and `pkg/storage/{dual,redis,mongodb,storage}.go`:

* `slugify`, `generateKey` — key generation from the inbound URL path
  (`slugify` and the inline key construction in `handleWebhook`);
* `findTargets` — dispatch-rule lookup;
* `forwardToTargets` — the per-target outbound request construction;
* `RedisStorage.Store`, `MongoDBStorage.Store`, `DualStorage.Store`,
  `DualStorage.Close` — the storage backends, parameterised over the
  external database clients (go-redis / mongo-driver), which are not code
  of this repository;
* `handleWebhook` — the HTTP ingestion handler, parameterised over the
  external `encoding/json` validator and `http.NewRequest` URL check.

Go `error` values are modelled as `Option String` (`none` = `nil`).
Stateful external clients are modelled by explicit state passing.
-/

namespace WebhookDispatcher

/-- Go `error` results: `none` is `nil`, `some msg` a non-nil error. -/
abbrev GoErr := Option String

/-! ### Character-level helpers for `slugify` -/

/-- Character class of the Go regex `[^a-zA-Z0-9-_]` complement: `true`
for characters the regex leaves alone (comparisons are on code points,
`97..122` = `a..z`, `65..90` = `A..Z`, `48..57` = `0..9`). -/
def allowedChar (c : Char) : Bool :=
  (97 ≤ c.toNat && c.toNat ≤ 122) || (65 ≤ c.toNat && c.toNat ≤ 90) ||
  (48 ≤ c.toNat && c.toNat ≤ 57) || c == '-' || c == '_'

/-- The character class the specification promises for slugs: lower-case
ASCII alphanumerics, hyphen and underscore. -/
def isLowerSlugChar (c : Char) : Bool :=
  (97 ≤ c.toNat && c.toNat ≤ 122) || (48 ≤ c.toNat && c.toNat ≤ 57) ||
  c == '-' || c == '_'

/-- One character of Go `strings.ToLower`. Only the ASCII case mapping is
modelled; in `slugify` this function is applied after the regex passes,
whose output is ASCII `[A-Za-z0-9_-]` only, where Go and this model
agree. -/
def toLowerChar (c : Char) : Char :=
  if 65 ≤ c.toNat && c.toNat ≤ 90 then Char.ofNat (c.toNat + 32) else c

/-- The replacement semantics of Go `regexp.ReplaceAllString` for a
pattern `X+` replaced by the single character `rep`: every maximal run of
characters satisfying `bad` becomes one `rep`. The flag `inRun` records
whether the previous input character was part of a run. -/
def squashRunsAux (bad : Char → Bool) (rep : Char) (inRun : Bool) :
    List Char → List Char
  | [] => []
  | c :: cs =>
    if bad c then
      if inRun then squashRunsAux bad rep true cs
      else rep :: squashRunsAux bad rep true cs
    else c :: squashRunsAux bad rep false cs

/-- Replace every maximal run of `bad` characters by one `rep`. -/
def squashRuns (bad : Char → Bool) (rep : Char) (l : List Char) : List Char :=
  squashRunsAux bad rep false l

/-- Drop the trailing characters satisfying `p` (the right half of Go
`strings.Trim`). -/
def dropTrailing (p : Char → Bool) : List Char → List Char
  | [] => []
  | c :: cs =>
    match dropTrailing p cs with
    | [] => if p c then [] else [c]
    | d :: ds => c :: d :: ds

/-- Go `strings.Trim(s, cutset)` for a one-character cutset: remove the
leading and trailing occurrences of `cut`. -/
def trimCutset (cut : Char) (l : List Char) : List Char :=
  dropTrailing (fun c => c == cut) (l.dropWhile (fun c => c == cut))

/-- Whether the character list contains two consecutive hyphens
(the substring `--`). -/
def hasHH : List Char → Bool
  | [] => false
  | [_] => false
  | c :: c' :: rest => (c == '-' && c' == '-') || hasHH (c' :: rest)

/-! ### `slugify` and key generation (pkg/server/server.go) -/

/-- The non-`root` branch of `slugify`: replace slashes by hyphens,
replace runs of special characters by one hyphen, collapse hyphen runs,
trim hyphens, lower-case. -/
def slugAfterTrim (trimmed : List Char) : String :=
  let s1 := trimmed.map (fun c => if c == '/' then '-' else c)
  let s2 := squashRuns (fun c => !(allowedChar c)) '-' s1
  let s3 := squashRuns (fun c => c == '-') '-' s2
  let s4 := trimCutset '-' s3
  ⟨s4.map toLowerChar⟩

/-- Go `slugify` from pkg/server/server.go: trim slashes; an empty
remainder gives the literal `root`; otherwise run the normalisation
pipeline. -/
def slugify (path : String) : String :=
  let trimmed := trimCutset '/' path.data
  if trimmed.isEmpty then "root" else slugAfterTrim trimmed

/-- The storage key built inline in `handleWebhook`:
`fmt.Sprintf("webhook-%s-%d", slugifiedPath, unixTime)`. -/
def generateKey (path : String) (unixTime : Int) : String :=
  "webhook-" ++ slugify path ++ "-" ++ toString unixTime

/-! ### Storage backends (pkg/storage) -/

/-- The persisted unit of pkg/storage/storage.go. `time.Time` is
modelled as an integer clock value. -/
structure Event where
  key : String
  path : String
  body : String
  timestamp : Int
  deriving Repr, DecidableEq

/-- The part of the external go-redis client used by `RedisStorage`:
`Set(ctx, key, value, expiration)` over an abstract client state `ρ`. -/
structure RedisClient (ρ : Type) where
  set : ρ → String → String → Nat → GoErr × ρ

/-- `RedisStorage.Store` from pkg/storage/redis.go:
`r.client.Set(ctx, key, body, 0).Err()`. The `path` argument is accepted
but not passed to the client; the expiration is the literal `0`. -/
def RedisStorage.Store {ρ : Type} (client : RedisClient ρ) (st : ρ)
    (key : String) (path : String) (body : String) : GoErr × ρ :=
  let _ := path
  client.set st key body 0

/-- A concrete model of a live Redis server for the client: state is the
list of key/value pairs, `SET` prepends (reads would take the first
binding, so this is overwrite semantics), and never fails. -/
def redisModelClient : RedisClient (List (String × String)) :=
  ⟨fun st k v _ => (none, (k, v) :: st)⟩

/-- `MongoDBStorage.Store` from pkg/storage/mongodb.go: build
`Event{Key: key, Path: path, Body: body, Timestamp: time.Now()}` and
`InsertOne` it; a failed insert is wrapped with a message. `insertOne`
is the external mongo-driver collection over state `μ`; `now` is the
value of `time.Now()` at the moment of the call. -/
def MongoDBStorage.Store {μ : Type} (insertOne : μ → Event → GoErr × μ)
    (now : Int) (st : μ) (key : String) (path : String) (body : String) :
    GoErr × μ :=
  let event : Event := ⟨key, path, body, now⟩
  match insertOne st event with
  | (some e, st') => (some ("failed to insert event to MongoDB: " ++ e), st')
  | (none, st') => (none, st')

/-- A concrete model of a live MongoDB collection: state is the list of
inserted documents, `InsertOne` appends and never fails. -/
def mongoInsertOk (st : List Event) (e : Event) : GoErr × List Event :=
  (none, st ++ [e])

/-- `DualStorage.Store` from pkg/storage/dual.go: store in Redis first
(primary); a primary error is returned at once. Then store in MongoDB
(secondary); a secondary error is only logged and the call returns
`nil`. The two underlying `Store` methods are passed as state-transition
functions over their connection states `σp`, `σs`. -/
def DualStorage.Store {σp σs : Type}
    (pStore : σp → String → String → String → GoErr × σp)
    (sStore : σs → String → String → String → GoErr × σs)
    (st : σp × σs) (key : String) (path : String) (body : String) :
    GoErr × (σp × σs) :=
  match pStore st.1 key path body with
  | (some e, sp') => (some e, (sp', st.2))
  | (none, sp') =>
    let r := sStore st.2 key path body
    (none, (sp', r.2))

/-- `DualStorage.Close` from pkg/storage/dual.go: close Redis, close
MongoDB (both unconditionally, errors recorded), then return the Redis
error if non-nil, else the MongoDB error. -/
def DualStorage.Close {σp σs : Type}
    (pClose : σp → GoErr × σp) (sClose : σs → GoErr × σs)
    (st : σp × σs) : GoErr × (σp × σs) :=
  let pr := pClose st.1
  let sr := sClose st.2
  (if pr.1.isSome then pr.1 else sr.1, (pr.2, sr.2))

/-! ### Dispatch table and forwarder (pkg/server/server.go) -/

/-- A dispatch rule: exact path, ordered target URLs. -/
structure DispatchRule where
  path : String
  targets : List String
  deriving Repr, DecidableEq

/-- The dispatch configuration (the `Meta` block carries no behaviour). -/
structure Config where
  dispatch : List DispatchRule
  deriving Repr, DecidableEq

/-- The loop body of Go `findTargets`: first rule whose `Path` equals the
inbound path wins; `nil` (the empty list) when none matches. -/
def findTargetsAux (path : String) : List DispatchRule → List String
  | [] => []
  | rule :: rest =>
    if rule.path == path then rule.targets else findTargetsAux path rest

/-- `findTargets(path, config)` from pkg/server/server.go. -/
def findTargets (path : String) (config : Config) : List String :=
  findTargetsAux path config.dispatch

/-- An outbound forward request as constructed by `forwardToTargets`. -/
structure OutboundRequest where
  method : String
  url : String
  body : String
  contentType : String
  deriving Repr, DecidableEq

/-- `forwardToTargets` from pkg/server/server.go, restricted to the
construction of the outbound requests (each is sent concurrently and its
outcome only logged). `newRequestOK` models the URL validation of the
external `http.NewRequest`: a target it rejects is logged and skipped.
Each constructed request is a POST with the original raw body; the
Content-Type is copied from the inbound header and defaults to
`application/json` when that header is empty. -/
def forwardToTargets (newRequestOK : String → Bool) (targets : List String)
    (body : String) (contentTypeHeader : String) : List OutboundRequest :=
  targets.filterMap (fun target =>
    if newRequestOK target then
      some { method := "POST", url := target, body := body,
             contentType :=
               if contentTypeHeader == "" then "application/json"
               else contentTypeHeader }
    else none)

/-! ### The ingestion handler (pkg/server/server.go, `handleWebhook`) -/

/-- An inbound request as seen by `handleWebhook`: URL path, the outcome
of `io.ReadAll(r.Body)` (`Except.error` = read failure), and the value
of the inbound `Content-Type` header (`""` when absent). -/
structure Request where
  path : String
  body : Except String String
  contentType : String

/-- The HTTP response: status code and body. `http.Error` appends a
newline to its message. -/
structure Response where
  status : Nat
  body : String
  deriving Repr, DecidableEq

/-- The observable outcome of one `handleWebhook` call: the response,
the final storage state, the `store.Store` calls made (argument triples
`(key, path, body)`, in order), and the outbound forward requests
spawned. -/
structure HandlerResult (σ : Type) where
  response : Response
  state : σ
  storeCalls : List (String × String × String)
  forwards : List OutboundRequest

/-- `handleWebhook` from pkg/server/server.go (the `storage.Storage`
variant appearing with pkg/storage/dual.go): read the body (failure →
400); validate JSON with `encoding/json.Unmarshal`, modelled by the
external predicate `jsonValid` (failure → 400); build the key from the
slugified path and `unixTime` (= `time.Now().Unix()`); `store.Store`
synchronously (failure → 500, no forwarding); look up targets and
forward when some exist; respond 200 naming the key. -/
def handleWebhook {σ : Type} (jsonValid : String → Bool)
    (newRequestOK : String → Bool)
    (store : σ → String → String → String → GoErr × σ)
    (st : σ) (r : Request) (config : Config) (unixTime : Int) :
    HandlerResult σ :=
  match r.body with
  | Except.error _ =>
    ⟨⟨400, "Failed to read request body\n"⟩, st, [], []⟩
  | Except.ok body =>
    if !(jsonValid body) then
      ⟨⟨400, "Invalid JSON\n"⟩, st, [], []⟩
    else
      let key := generateKey r.path unixTime
      match store st key r.path body with
      | (some _, st') =>
        ⟨⟨500, "Failed to store webhook\n"⟩, st', [(key, r.path, body)], []⟩
      | (none, st') =>
        let targets := findTargets r.path config
        let fwds :=
          if targets.length > 0 then
            forwardToTargets newRequestOK targets body r.contentType
          else []
        ⟨⟨200, "Webhook received and stored: " ++ key ++ "\n"⟩, st',
          [(key, r.path, body)], fwds⟩

/-! ### Test doubles used by the witness theorems -/

/-- A backend `Store` that always fails and counts its invocations. -/
def storeFailCounter : Nat → String → String → String → GoErr × Nat :=
  fun n _ _ _ => (some "boom", n + 1)

/-- A backend `Store` that always succeeds and counts its invocations. -/
def storeOkCounter : Nat → String → String → String → GoErr × Nat :=
  fun n _ _ _ => (none, n + 1)

/-! ### Sanity checks for the spec's concrete slug examples -/

example : slugify "" = "root" := by decide
example : slugify "/" = "root" := by decide
example : slugify "/Foo/Bar!!/" = "foo-bar" := by decide
example : slugify "/!!!/" = "" := by decide
example : generateKey "/!!!/" 1700000000 = "webhook--1700000000" := by rfl
example : hasHH "a--b".data = true := by decide
example : hasHH "a-b".data = false := by decide

/-! ### Helper lemmas about the slug pipeline -/

theorem char_toNat_ofNat_valid (n : Nat) (h : n < 55296) :
    (Char.ofNat n).toNat = n := by
  have hv : n.isValidChar := Or.inl h
  simp [Char.ofNat, hv, Char.ofNatAux, Char.toNat, UInt32.toNat,
    BitVec.toNat_ofNatLt]

theorem toLowerChar_upper_case (c : Char)
    (hu : 65 ≤ c.toNat ∧ c.toNat ≤ 90) :
    toLowerChar c = Char.ofNat (c.toNat + 32) := by
  unfold toLowerChar
  rw [if_pos]
  simp only [Bool.and_eq_true, decide_eq_true_eq]
  exact hu

theorem toLowerChar_other_case (c : Char)
    (hu : ¬(65 ≤ c.toNat ∧ c.toNat ≤ 90)) :
    toLowerChar c = c := by
  unfold toLowerChar
  rw [if_neg]
  simp only [Bool.and_eq_true, decide_eq_true_eq]
  exact hu

theorem toLowerChar_lower_out (c : Char) (h : allowedChar c = true) :
    isLowerSlugChar (toLowerChar c) = true := by
  by_cases hu : 65 ≤ c.toNat ∧ c.toNat ≤ 90
  · rw [toLowerChar_upper_case c hu]
    have h32 : (Char.ofNat (c.toNat + 32)).toNat = c.toNat + 32 :=
      char_toNat_ofNat_valid _ (by omega)
    unfold isLowerSlugChar
    rw [h32]
    simp only [Bool.or_eq_true, Bool.and_eq_true, decide_eq_true_eq]
    exact Or.inl (Or.inl (Or.inl ⟨by omega, by omega⟩))
  · rw [toLowerChar_other_case c hu]
    unfold allowedChar at h
    unfold isLowerSlugChar
    simp only [Bool.or_eq_true, Bool.and_eq_true, decide_eq_true_eq,
      beq_iff_eq] at h ⊢
    rcases h with ((((hA | hB) | hC) | hD) | hE)
    · exact Or.inl (Or.inl (Or.inl hA))
    · exact absurd hB hu
    · exact Or.inl (Or.inl (Or.inr hC))
    · exact Or.inl (Or.inr hD)
    · exact Or.inr hE

theorem toLowerChar_hyphen (c : Char) :
    (toLowerChar c == '-') = (c == '-') := by
  by_cases hc : c = '-'
  · subst hc; decide
  · have h2 : (c == '-') = false := by simpa using hc
    rw [h2]
    by_cases hu : 65 ≤ c.toNat ∧ c.toNat ≤ 90
    · rw [toLowerChar_upper_case c hu]
      have h32 : (Char.ofNat (c.toNat + 32)).toNat = c.toNat + 32 :=
        char_toNat_ofNat_valid _ (by omega)
      simp only [beq_eq_false_iff_ne, ne_eq]
      intro habs
      have habs2 : (Char.ofNat (c.toNat + 32)).toNat = ('-').toNat :=
        congrArg Char.toNat habs
      have h45 : ('-').toNat = 45 := rfl
      rw [h32, h45] at habs2
      omega
    · rw [toLowerChar_other_case c hu]
      exact h2

theorem mem_squashRunsAux {bad : Char → Bool} {rep a : Char} :
    ∀ {b : Bool} {l : List Char}, a ∈ squashRunsAux bad rep b l →
      a = rep ∨ (a ∈ l ∧ bad a = false) := by
  intro b l
  induction l generalizing b with
  | nil => intro h; simp [squashRunsAux] at h
  | cons c cs ih =>
    intro h
    by_cases hc : bad c
    · rw [squashRunsAux, if_pos hc] at h
      cases b with
      | true =>
        rcases ih h with h1 | h1
        · exact Or.inl h1
        · exact Or.inr ⟨List.mem_cons_of_mem _ h1.1, h1.2⟩
      | false =>
        rcases List.mem_cons.mp h with h1 | h1
        · exact Or.inl h1
        · rcases ih h1 with h2 | h2
          · exact Or.inl h2
          · exact Or.inr ⟨List.mem_cons_of_mem _ h2.1, h2.2⟩
    · rw [squashRunsAux, if_neg hc] at h
      rcases List.mem_cons.mp h with h1 | h1
      · subst h1
        exact Or.inr ⟨List.mem_cons_self _ _, by simpa using hc⟩
      · rcases ih h1 with h2 | h2
        · exact Or.inl h2
        · exact Or.inr ⟨List.mem_cons_of_mem _ h2.1, h2.2⟩

theorem head_squashRunsAux_inRun {bad : Char → Bool} {rep a : Char} :
    ∀ {l : List Char}, (squashRunsAux bad rep true l).head? = some a →
      bad a = false := by
  intro l
  induction l with
  | nil => intro h; simp [squashRunsAux] at h
  | cons c cs ih =>
    intro h
    by_cases hc : bad c
    · rw [squashRunsAux, if_pos hc] at h
      exact ih h
    · rw [squashRunsAux, if_neg hc] at h
      simp only [List.head?_cons, Option.some.injEq] at h
      subst h
      simpa using hc

theorem hasHH_cons_of_ne {c : Char} (h : (c == '-') = false)
    (l : List Char) : hasHH (c :: l) = hasHH l := by
  cases l <;> simp [hasHH, h]

theorem hasHH_tail {c : Char} {l : List Char}
    (h : hasHH (c :: l) = false) : hasHH l = false := by
  cases l with
  | nil => rfl
  | cons d ds =>
    simp only [hasHH, Bool.or_eq_false_iff] at h
    exact h.2

theorem hasHH_squashHyphens :
    ∀ (l : List Char) (b : Bool),
      hasHH (squashRunsAux (fun c => c == '-') '-' b l) = false := by
  intro l
  induction l with
  | nil => intro b; rfl
  | cons c cs ih =>
    intro b
    by_cases hc : (c == '-') = true
    · cases b with
      | true =>
        rw [squashRunsAux, if_pos hc]
        exact ih true
      | false =>
        rw [squashRunsAux, if_pos hc]
        cases hX : squashRunsAux (fun c => c == '-') '-' true cs with
        | nil => simp [hasHH]
        | cons d ds =>
          have hd : (d == '-') = false :=
            @head_squashRunsAux_inRun (fun c => c == '-') '-' d cs
              (by rw [hX]; rfl)
          have hrest : hasHH (d :: ds) = false := by
            rw [← hX]; exact ih true
          simp only [hasHH, Bool.or_eq_false_iff]
          exact ⟨by simp [hd], hrest⟩
    · have hc' : (c == '-') = false := by simpa using hc
      rw [squashRunsAux, if_neg (by simp [hc']), hasHH_cons_of_ne hc']
      exact ih false

theorem head_dropWhile {p : Char → Bool} :
    ∀ {l : List Char} {a : Char}, (l.dropWhile p).head? = some a →
      p a = false := by
  intro l
  induction l with
  | nil => intro a h; simp [List.dropWhile] at h
  | cons c cs ih =>
    intro a h
    by_cases hc : p c
    · rw [List.dropWhile_cons_of_pos hc] at h
      exact ih h
    · rw [List.dropWhile_cons_of_neg hc] at h
      simp only [List.head?_cons, Option.some.injEq] at h
      subst h
      simpa using hc

theorem hasHH_dropWhile (p : Char → Bool) :
    ∀ {l : List Char}, hasHH l = false → hasHH (l.dropWhile p) = false := by
  intro l
  induction l with
  | nil => intro h; exact h
  | cons c cs ih =>
    intro h
    by_cases hc : p c
    · rw [List.dropWhile_cons_of_pos hc]
      exact ih (hasHH_tail h)
    · rw [List.dropWhile_cons_of_neg hc]
      exact h

theorem mem_dropTrailing {p : Char → Bool} {a : Char} :
    ∀ {l : List Char}, a ∈ dropTrailing p l → a ∈ l := by
  intro l
  induction l with
  | nil => intro h; simp [dropTrailing] at h
  | cons c cs ih =>
    intro h
    rw [dropTrailing] at h
    cases hR : dropTrailing p cs with
    | nil =>
      rw [hR] at h
      by_cases hpc : p c
      · rw [if_pos hpc] at h; simp at h
      · rw [if_neg hpc] at h
        simp only [List.mem_singleton] at h
        subst h
        exact List.mem_cons_self _ _
    | cons d ds =>
      rw [hR] at h
      rcases List.mem_cons.mp h with h1 | h1
      · subst h1; exact List.mem_cons_self _ _
      · apply List.mem_cons_of_mem
        apply ih
        rw [hR]
        exact h1

theorem head_dropTrailing {p : Char → Bool} {a : Char} {l : List Char}
    (h : (dropTrailing p l).head? = some a) : l.head? = some a := by
  cases l with
  | nil => simp [dropTrailing] at h
  | cons c cs =>
    rw [dropTrailing] at h
    cases hR : dropTrailing p cs with
    | nil =>
      rw [hR] at h
      by_cases hpc : p c
      · rw [if_pos hpc] at h; simp at h
      · rw [if_neg hpc] at h
        simpa using h
    | cons d ds =>
      rw [hR] at h
      simpa using h

theorem getLast_dropTrailing {p : Char → Bool} {a : Char} :
    ∀ {l : List Char}, (dropTrailing p l).getLast? = some a →
      p a = false := by
  intro l
  induction l with
  | nil => intro h; simp [dropTrailing] at h
  | cons c cs ih =>
    intro h
    rw [dropTrailing] at h
    cases hR : dropTrailing p cs with
    | nil =>
      rw [hR] at h
      by_cases hpc : p c
      · rw [if_pos hpc] at h; simp at h
      · rw [if_neg hpc] at h
        simp only [List.getLast?_singleton, Option.some.injEq] at h
        subst h
        simpa using hpc
    | cons d ds =>
      rw [hR] at h
      rw [List.getLast?_cons_cons] at h
      apply ih
      rw [hR]
      exact h

theorem hasHH_dropTrailing (p : Char → Bool) :
    ∀ {l : List Char}, hasHH l = false →
      hasHH (dropTrailing p l) = false := by
  intro l
  induction l with
  | nil => intro h; exact h
  | cons c cs ih =>
    intro h
    rw [dropTrailing]
    cases hR : dropTrailing p cs with
    | nil =>
      by_cases hpc : p c
      · rw [if_pos hpc]; rfl
      · rw [if_neg hpc]; rfl
    | cons d ds =>
      have hd : cs.head? = some d :=
        @head_dropTrailing p d cs (by rw [hR]; rfl)
      cases cs with
      | nil => simp at hd
      | cons e es =>
        have hed : e = d := by simpa using hd
        have h1 : (c == '-' && e == '-') = false := by
          simp only [hasHH, Bool.or_eq_false_iff] at h
          exact h.1
        have h2 : hasHH (d :: ds) = false := by
          rw [← hR]
          exact ih (hasHH_tail h)
        simp only [hasHH, Bool.or_eq_false_iff]
        refine ⟨?_, h2⟩
        rw [← hed]
        exact h1

theorem hasHH_map_toLower :
    ∀ {l : List Char}, hasHH l = false →
      hasHH (l.map toLowerChar) = false := by
  intro l
  induction l with
  | nil => intro h; exact h
  | cons c cs ih =>
    intro h
    cases cs with
    | nil => simp [hasHH]
    | cons d ds =>
      simp only [List.map_cons]
      simp only [hasHH, Bool.or_eq_false_iff] at h ⊢
      refine ⟨?_, ?_⟩
      · rw [toLowerChar_hyphen, toLowerChar_hyphen]
        exact h.1
      · have h3 := ih h.2
        simpa using h3

theorem mem_trimCutset {a cut : Char} {l : List Char}
    (h : a ∈ trimCutset cut l) : a ∈ l := by
  unfold trimCutset at h
  exact (List.dropWhile_sublist _).subset (mem_dropTrailing h)

theorem trim_head_no_hyphen {x : Char} {l : List Char}
    (hx : (trimCutset '-' l).head? = some x) : (x == '-') = false := by
  unfold trimCutset at hx
  have h1 : (List.dropWhile (fun c => c == '-') l).head? = some x :=
    @head_dropTrailing (fun c => c == '-') x
      (List.dropWhile (fun c => c == '-') l) hx
  exact @head_dropWhile (fun c => c == '-') l x h1

theorem trim_last_no_hyphen {x : Char} {l : List Char}
    (hx : (trimCutset '-' l).getLast? = some x) : (x == '-') = false := by
  unfold trimCutset at hx
  exact @getLast_dropTrailing (fun c => c == '-') x
    (List.dropWhile (fun c => c == '-') l) hx

theorem hasHH_trimCutset (cut : Char) {l : List Char}
    (h : hasHH l = false) : hasHH (trimCutset cut l) = false := by
  unfold trimCutset
  exact hasHH_dropTrailing _ (hasHH_dropWhile _ h)

theorem allowed_pass (s1 : List Char) :
    ∀ a ∈ squashRuns (fun c => c == '-') '-'
        (squashRuns (fun c => !(allowedChar c)) '-' s1),
      allowedChar a = true := by
  intro a ha
  unfold squashRuns at ha
  rcases @mem_squashRunsAux (fun c => c == '-') '-' a false _ ha with h1 | h1
  · subst h1; decide
  · rcases @mem_squashRunsAux (fun c => !(allowedChar c)) '-' a false _ h1.1
      with h2 | h2
    · subst h2; decide
    · simpa using h2.2

theorem hh_pass (s2 : List Char) :
    hasHH (squashRuns (fun c => c == '-') '-' s2) = false := by
  unfold squashRuns
  exact hasHH_squashHyphens s2 false

theorem wellformed_of_stage (s3 : List Char)
    (hallowed : ∀ a ∈ s3, allowedChar a = true)
    (hHH : hasHH s3 = false) :
    ((trimCutset '-' s3).map toLowerChar).all isLowerSlugChar = true
    ∧ ((trimCutset '-' s3).map toLowerChar).head? ≠ some '-'
    ∧ ((trimCutset '-' s3).map toLowerChar).getLast? ≠ some '-'
    ∧ hasHH ((trimCutset '-' s3).map toLowerChar) = false := by
  refine ⟨?_, ?_, ?_, ?_⟩
  · rw [List.all_eq_true]
    intro a ha
    rcases List.mem_map.mp ha with ⟨x, hx, hxa⟩
    subst hxa
    exact toLowerChar_lower_out x (hallowed x (mem_trimCutset hx))
  · rw [List.head?_map]
    intro habs
    rcases Option.map_eq_some'.mp habs with ⟨x, hx, hxl⟩
    have hx' : (x == '-') = false := trim_head_no_hyphen hx
    have hx2 : (toLowerChar x == '-') = true := by simp [hxl]
    rw [toLowerChar_hyphen, hx'] at hx2
    cases hx2
  · rw [List.getLast?_map]
    intro habs
    rcases Option.map_eq_some'.mp habs with ⟨x, hx, hxl⟩
    have hx' : (x == '-') = false := trim_last_no_hyphen hx
    have hx2 : (toLowerChar x == '-') = true := by simp [hxl]
    rw [toLowerChar_hyphen, hx'] at hx2
    cases hx2
  · exact hasHH_map_toLower (hasHH_trimCutset '-' hHH)

theorem slugAfterTrim_wellformed (l : List Char) :
    ((slugAfterTrim l).data.all isLowerSlugChar) = true
    ∧ (slugAfterTrim l).data.head? ≠ some '-'
    ∧ (slugAfterTrim l).data.getLast? ≠ some '-'
    ∧ hasHH (slugAfterTrim l).data = false := by
  have key := wellformed_of_stage
      (squashRuns (fun c => c == '-') '-'
        (squashRuns (fun c => !(allowedChar c)) '-'
          (l.map (fun c => if c == '/' then '-' else c))))
      (allowed_pass _) (hh_pass _)
  exact key
/-! ### Claim theorems -/

/-- C1. For the composite (primary+secondary) backend, whenever the
primary `Store` fails, the overall `Store` call returns that failure and
leaves the secondary state untouched for every possible secondary
backend (so the secondary's `Store` is never invoked), and the ingestion
handler returns a 500 response with no forwarding performed. -/
theorem dual_primary_failure_gates {σp σs : Type}
    (jsonValid newRequestOK : String → Bool)
    (pStore : σp → String → String → String → GoErr × σp)
    (sStore : σs → String → String → String → GoErr × σs)
    (sp : σp) (ss : σs) (path b ct : String) (config : Config) (t : Int)
    (e : String) (sp' : σp)
    (hjson : jsonValid b = true)
    (hp : pStore sp (generateKey path t) path b = (some e, sp')) :
    DualStorage.Store pStore sStore (sp, ss) (generateKey path t) path b
        = (some e, (sp', ss))
    ∧ handleWebhook jsonValid newRequestOK (DualStorage.Store pStore sStore)
        (sp, ss) ⟨path, Except.ok b, ct⟩ config t
        = ⟨⟨500, "Failed to store webhook\n"⟩, (sp', ss),
           [(generateKey path t, path, b)], []⟩ := by
  refine ⟨?_, ?_⟩
  · simp [DualStorage.Store, hp]
  · simp [handleWebhook, hjson, DualStorage.Store, hp]

/-- Witness for C1 at a concrete input: the secondary invocation counter
stays at 0 while the primary counter reaches 1, the dual store returns
the primary error, and the handler answers 500 with no forwards. -/
theorem dual_primary_failure_gates_witness :
    storeFailCounter 0 (generateKey "/x" 5) "/x" "7" = (some "boom", 1)
    ∧ (DualStorage.Store storeFailCounter storeOkCounter (0, 0)
          (generateKey "/x" 5) "/x" "7" = (some "boom", (1, 0))
      ∧ handleWebhook (fun _ => true) (fun _ => true)
          (DualStorage.Store storeFailCounter storeOkCounter) (0, 0)
          ⟨"/x", Except.ok "7", ""⟩ ⟨[]⟩ 5
          = ⟨⟨500, "Failed to store webhook\n"⟩, (1, 0),
             [(generateKey "/x" 5, "/x", "7")], []⟩) :=
  ⟨rfl, dual_primary_failure_gates (fun _ => true) (fun _ => true)
    storeFailCounter storeOkCounter 0 0 "/x" "7" "" ⟨[]⟩ 5 "boom" 1 rfl rfl⟩

/-- C2. For the composite backend, whenever the primary `Store` succeeds
and the secondary `Store` fails, the overall `Store` call returns
success (the secondary error is swallowed) and the client receives a
200 response. -/
theorem dual_secondary_failure_swallowed {σp σs : Type}
    (jsonValid newRequestOK : String → Bool)
    (pStore : σp → String → String → String → GoErr × σp)
    (sStore : σs → String → String → String → GoErr × σs)
    (sp : σp) (ss : σs) (path b ct : String) (config : Config) (t : Int)
    (sp' : σp) (es : String) (ss' : σs)
    (hjson : jsonValid b = true)
    (hp : pStore sp (generateKey path t) path b = (none, sp'))
    (hs : sStore ss (generateKey path t) path b = (some es, ss')) :
    DualStorage.Store pStore sStore (sp, ss) (generateKey path t) path b
        = (none, (sp', ss'))
    ∧ (handleWebhook jsonValid newRequestOK
        (DualStorage.Store pStore sStore) (sp, ss)
        ⟨path, Except.ok b, ct⟩ config t).response.status = 200 := by
  refine ⟨?_, ?_⟩
  · simp [DualStorage.Store, hp, hs]
  · simp [handleWebhook, hjson, DualStorage.Store, hp, hs]

/-- Witness for C2 at a concrete input: primary succeeds, secondary
fails, the dual store reports success and the handler answers 200. -/
theorem dual_secondary_failure_swallowed_witness :
    storeOkCounter 0 (generateKey "/x" 5) "/x" "7" = (none, 1)
    ∧ storeFailCounter 0 (generateKey "/x" 5) "/x" "7" = (some "boom", 1)
    ∧ (DualStorage.Store storeOkCounter storeFailCounter (0, 0)
          (generateKey "/x" 5) "/x" "7" = (none, (1, 1))
      ∧ (handleWebhook (fun _ => true) (fun _ => true)
          (DualStorage.Store storeOkCounter storeFailCounter) (0, 0)
          ⟨"/x", Except.ok "7", ""⟩ ⟨[]⟩ 5).response.status = 200) :=
  ⟨rfl, rfl, dual_secondary_failure_swallowed (fun _ => true) (fun _ => true)
    storeOkCounter storeFailCounter 0 0 "/x" "7" "" ⟨[]⟩ 5 1 "boom" 1
    rfl rfl rfl⟩

/-- C3. A request whose body is not well-formed JSON gets a 400 response
and causes no side effects: the storage state is returned unchanged (so
any event count over it is unchanged), no `Store` call is recorded, and
no forwarding is attempted. -/
theorem invalid_json_no_side_effects {σ : Type}
    (jsonValid newRequestOK : String → Bool)
    (store : σ → String → String → String → GoErr × σ)
    (st : σ) (path b ct : String) (config : Config) (t : Int)
    (hjson : jsonValid b = false) :
    handleWebhook jsonValid newRequestOK store st
        ⟨path, Except.ok b, ct⟩ config t
      = ⟨⟨400, "Invalid JSON\n"⟩, st, [], []⟩ := by
  simp [handleWebhook, hjson]

/-- Witness for C3 at a concrete input: the body `not json` is rejected
by the validator, the response is 400 and the state, store-call list and
forward list are untouched. -/
theorem invalid_json_no_side_effects_witness :
    (fun s => !(s == "not json")) "not json" = false
    ∧ handleWebhook (fun s => !(s == "not json")) (fun _ => true)
        storeOkCounter 0 ⟨"/x", Except.ok "not json", ""⟩ ⟨[]⟩ 5
      = ⟨⟨400, "Invalid JSON\n"⟩, 0, [], []⟩ :=
  ⟨rfl, invalid_json_no_side_effects (fun s => !(s == "not json"))
    (fun _ => true) storeOkCounter 0 "/x" "not json" "" ⟨[]⟩ 5 rfl⟩

/-- C4. For every accepted (valid-JSON, successfully persisted) request,
the 200 response body contains the key
`webhook-<slug(path)>-<unix seconds>` and the single `Store` call was
made with exactly that key. -/
theorem accepted_request_key_format {σ : Type}
    (jsonValid newRequestOK : String → Bool)
    (store : σ → String → String → String → GoErr × σ)
    (st st' : σ) (path b ct : String) (config : Config) (t : Int)
    (hjson : jsonValid b = true)
    (hstore : store st (generateKey path t) path b = (none, st')) :
    (handleWebhook jsonValid newRequestOK store st
        ⟨path, Except.ok b, ct⟩ config t).response.status = 200
    ∧ (handleWebhook jsonValid newRequestOK store st
        ⟨path, Except.ok b, ct⟩ config t).response.body
      = "Webhook received and stored: "
        ++ ("webhook-" ++ slugify path ++ "-" ++ toString t) ++ "\n"
    ∧ (handleWebhook jsonValid newRequestOK store st
        ⟨path, Except.ok b, ct⟩ config t).storeCalls
      = [("webhook-" ++ slugify path ++ "-" ++ toString t, path, b)] := by
  have h2 := hstore
  simp only [generateKey] at h2
  refine ⟨?_, ?_, ?_⟩ <;> simp [handleWebhook, hjson, h2, generateKey]

/-- Witness for C4 at a concrete input: the response body names the key
`webhook-x-5` and the store call used the same key. -/
theorem accepted_request_key_format_witness :
    storeOkCounter 0 (generateKey "/x" 5) "/x" "7" = (none, 1)
    ∧ ((handleWebhook (fun _ => true) (fun _ => true) storeOkCounter 0
          ⟨"/x", Except.ok "7", ""⟩ ⟨[]⟩ 5).response.status = 200
      ∧ (handleWebhook (fun _ => true) (fun _ => true) storeOkCounter 0
          ⟨"/x", Except.ok "7", ""⟩ ⟨[]⟩ 5).response.body
        = "Webhook received and stored: "
          ++ ("webhook-" ++ slugify "/x" ++ "-" ++ toString (5 : Int)) ++ "\n"
      ∧ (handleWebhook (fun _ => true) (fun _ => true) storeOkCounter 0
          ⟨"/x", Except.ok "7", ""⟩ ⟨[]⟩ 5).storeCalls
        = [("webhook-" ++ slugify "/x" ++ "-" ++ toString (5 : Int),
            "/x", "7")]) :=
  ⟨rfl, accepted_request_key_format (fun _ => true) (fun _ => true)
    storeOkCounter 0 1 "/x" "7" "" ⟨[]⟩ 5 rfl rfl⟩

/-- C6. `findTargets` returns the target list of the first rule (in
configuration order) whose path equals the inbound path exactly, and the
empty list when no rule matches exactly; the match predicate is plain
string equality, so no wildcard or prefix matching occurs. -/
theorem findTargets_first_exact_match (path : String) (config : Config) :
    findTargets path config
      = (match config.dispatch.find? (fun rule => rule.path == path) with
         | some rule => rule.targets
         | none => []) := by
  unfold findTargets
  induction config.dispatch with
  | nil => rfl
  | cons rule rest ih =>
    by_cases h : rule.path == path
    · simp [findTargetsAux, List.find?, h]
    · simp only [Bool.not_eq_true] at h
      simp [findTargetsAux, List.find?, h, ih]

/-- C7. `DualStorage.Close` applies both underlying closes
unconditionally (the secondary close is attempted even when the primary
close fails), reports failure exactly when either close failed, and
surfaces the primary error whenever the primary close failed (in
particular when both failed). -/
theorem dual_close_both_attempted {σp σs : Type}
    (pClose : σp → GoErr × σp) (sClose : σs → GoErr × σs)
    (sp : σp) (ss : σs) (pe se : GoErr) (sp' : σp) (ss' : σs)
    (hp : pClose sp = (pe, sp'))
    (hs : sClose ss = (se, ss')) :
    (DualStorage.Close pClose sClose (sp, ss)).2 = (sp', ss')
    ∧ ((DualStorage.Close pClose sClose (sp, ss)).1 = none
        ↔ (pe = none ∧ se = none))
    ∧ (∀ a, pe = some a →
        (DualStorage.Close pClose sClose (sp, ss)).1 = some a) := by
  refine ⟨?_, ?_, ?_⟩
  · simp [DualStorage.Close, hp, hs]
  · cases pe <;> simp [DualStorage.Close, hp, hs]
  · intro a ha
    subst ha
    simp [DualStorage.Close, hp, hs]

/-- Witness for C7 at a concrete input: both closes fail; both
invocation counters advance to 1 (each close attempted exactly once),
the call reports failure, and the primary error is the one returned. -/
theorem dual_close_both_attempted_witness :
    (fun n : Nat => ((some "redis gone" : GoErr), n + 1)) 0
        = (some "redis gone", 1)
    ∧ (fun n : Nat => ((some "mongo gone" : GoErr), n + 1)) 0
        = (some "mongo gone", 1)
    ∧ ((DualStorage.Close (fun n : Nat => ((some "redis gone" : GoErr), n + 1))
          (fun n : Nat => ((some "mongo gone" : GoErr), n + 1)) (0, 0)).2
        = (1, 1)
      ∧ ((DualStorage.Close (fun n : Nat => ((some "redis gone" : GoErr), n + 1))
          (fun n : Nat => ((some "mongo gone" : GoErr), n + 1)) (0, 0)).1 = none
          ↔ ((some "redis gone" : GoErr) = none
            ∧ (some "mongo gone" : GoErr) = none))
      ∧ (∀ a, (some "redis gone" : GoErr) = some a →
          (DualStorage.Close (fun n : Nat => ((some "redis gone" : GoErr), n + 1))
            (fun n : Nat => ((some "mongo gone" : GoErr), n + 1)) (0, 0)).1
            = some a)) :=
  ⟨rfl, rfl, dual_close_both_attempted
    (fun n : Nat => ((some "redis gone" : GoErr), n + 1))
    (fun n : Nat => ((some "mongo gone" : GoErr), n + 1))
    0 0 (some "redis gone") (some "mongo gone") 1 1 rfl rfl⟩

/-- C8, counterexample. The claim says every persisted event, in the
primary store too, is a record with fields key, path, body and
timestamp, with path the original inbound path. But `RedisStorage.Store`
passes only the key and the raw body to the Redis client: two store
calls that differ only in the inbound path persist identically, and the
value stored under the key is exactly the raw body string, so the
primary store's persisted record carries neither a path nor a
timestamp field. -/
theorem redis_record_shape_counterexample :
    RedisStorage.Store redisModelClient [] "k" "/a" "x"
      = RedisStorage.Store redisModelClient [] "k" "/b" "x"
    ∧ (RedisStorage.Store redisModelClient [] "k" "/a" "x").2 = [("k", "x")]
    ∧ ("/a" : String) ≠ "/b" := by
  refine ⟨rfl, rfl, by decide⟩

/-- C8, amended. The secondary (MongoDB) store persists the full record
`Event {key, path, body, timestamp}` with the original inbound path and
the persistence-time clock value; the primary (Redis) store persists
only the raw body string under the key. -/
theorem record_shape_amended (key path body : String) (now : Int)
    (stM : List Event) (stR : List (String × String)) :
    MongoDBStorage.Store mongoInsertOk now stM key path body
      = (none, stM ++ [⟨key, path, body, now⟩])
    ∧ RedisStorage.Store redisModelClient stR key path body
      = (none, (key, body) :: stR) :=
  ⟨rfl, rfl⟩

/-- C9. Every outbound request constructed by `forwardToTargets` is a
POST carrying exactly the original raw inbound body, with Content-Type
equal to the inbound Content-Type header when that header is non-empty
and `application/json` otherwise; and when every target URL is accepted
by `http.NewRequest`, exactly one such request is constructed per
target, in order. -/
theorem forward_request_shape (newRequestOK : String → Bool)
    (targets : List String) (body ct : String) :
    ((forwardToTargets newRequestOK targets body ct).all
      (fun req => req.method == "POST" && req.body == body &&
        req.contentType ==
          (if ct == "" then "application/json" else ct))) = true
    ∧ forwardToTargets (fun _ => true) targets body ct
      = targets.map (fun target =>
          ⟨"POST", target, body,
            if ct == "" then "application/json" else ct⟩) := by
  constructor
  · rw [List.all_eq_true]
    intro req hreq
    rw [forwardToTargets, List.mem_filterMap] at hreq
    obtain ⟨a, _, hfa⟩ := hreq
    by_cases h : newRequestOK a
    · rw [if_pos h] at hfa
      cases hfa
      simp
    · rw [if_neg h] at hfa
      cases hfa
  · induction targets with
    | nil => rfl
    | cons target rest ih =>
      simp only [forwardToTargets] at ih ⊢
      simp only [List.filterMap_cons, if_pos, List.map_cons]
      exact congrArg _ ih

/-- C5. For every input path, `slugify` produces only lower-case
alphanumerics, hyphen and underscore (`isLowerSlugChar`), never starts
or ends with a hyphen, and never contains two consecutive hyphens
(`hasHH` decides whether a character list contains the substring
composed of two hyphens). -/
theorem slug_wellformed (p : String) :
    ((slugify p).data.all isLowerSlugChar) = true
    ∧ (slugify p).data.head? ≠ some '-'
    ∧ (slugify p).data.getLast? ≠ some '-'
    ∧ hasHH (slugify p).data = false := by
  unfold slugify
  by_cases h : (trimCutset '/' p.data).isEmpty
  · rw [if_pos h]
    refine ⟨by decide, by decide, by decide, by decide⟩
  · rw [if_neg h]
    exact slugAfterTrim_wellformed _

/-- C10. There is a non-empty path, `/!!!/`, whose slug is the empty
string, so the generated key degenerates to `webhook--<seconds>`; and
the literal token `root` is produced by the substitution branch only
when the path is empty after trimming slashes — whenever the trimmed
path is non-empty, `slugify` runs the normalisation pipeline
(`slugAfterTrim`) instead. -/
theorem slug_empty_not_root :
    slugify "/!!!/" = ""
    ∧ generateKey "/!!!/" 1700000000 = "webhook--1700000000"
    ∧ (trimCutset '/' "/!!!/".data).isEmpty = false
    ∧ (∀ p : String, (trimCutset '/' p.data).isEmpty = false →
        slugify p = slugAfterTrim (trimCutset '/' p.data)) := by
  refine ⟨by decide, by rfl, by decide, ?_⟩
  intro p h
  unfold slugify
  rw [if_neg (by simp [h])]

/-- Witness for C10's universally quantified part at a concrete input:
the path `/abc` is non-empty after trimming, and its slug comes from the
normalisation pipeline, not from the `root` substitution. -/
theorem slug_empty_not_root_witness :
    (trimCutset '/' "/abc".data).isEmpty = false
    ∧ slugify "/abc" = slugAfterTrim (trimCutset '/' "/abc".data) :=
  ⟨by decide, slug_empty_not_root.2.2.2 "/abc" (by decide)⟩

end WebhookDispatcher
